import Mathlib

/-!
Verification of the webpie request-dispatch engine (src/webpie/WPApp.py)
against its natural-language specification.

The Python source is shallowly embedded below.  Pure functions of the
source become Lean functions; Python exceptions become `Except`; the
webob `Response` object (bundled with the repository but not under
`src/`) is modelled from the spec's "Canonical Response" record (§3):
separate fields for status, a headers mapping, an explicitly applied
content-type, and the body, with the effective content type derived
from the explicit field first and the headers mapping second (spec:
"Headers are applied before content-type so an explicit content-type
argument always wins over one implied by headers").
-/

namespace WebPie

/-! ### Byte strings and chunks -/

/-- Bytes are modelled as lists of natural numbers. -/
abbrev Bytes := List Nat

/-- A byte-like chunk: either a text string or a byte string
(the elements acceptable to `to_bytes`). -/
inductive Chunk where
  | chStr (s : String)
  | chBytes (b : Bytes)
deriving DecidableEq, Repr

/-- Encoding a string to bytes (`s.encode("utf-8")` is abstracted as the
list of character codes; only injectivity matters to the claims). -/
def strBytes (s : String) : Bytes := s.data.map Char.toNat

/-- Embeds `to_bytes` (WPApp.py lines 12-13, Python 3 branch):
a `bytes` value passes through, a `str` is encoded. -/
def to_bytes : Chunk → Bytes
  | .chStr s => strBytes s
  | .chBytes b => b

/-! ### The canonical response (webob `Response`, modelled from the spec) -/

/-- Canonical response record (spec §3 "Canonical Response").  `none` in
`status` / `contentType` stands for the webob defaults (200, text/html);
`headersMap = none` stands for "no headers mapping was assigned". -/
structure Resp where
  status : Option Int
  headersMap : Option (List (String × String))
  contentType : Option String
  appIter : Option (List Bytes)
  text : Option String
deriving DecidableEq, Repr

/-- Association-list lookup (first match wins), used for header lookup
and for handler attribute dictionaries. -/
def alookup {α : Type} : List (String × α) → String → Option α
  | [], _ => none
  | (k, v) :: rest, key => if k = key then some v else alookup rest key

/-- Effective content type of a canonical response: the explicitly
applied content-type wins; otherwise one implied by the assigned headers
mapping; otherwise the webob default `text/html`. -/
def effContentType (r : Resp) : String :=
  match r.contentType with
  | some c => c
  | none =>
    match r.headersMap with
    | some hs =>
      match alookup hs "Content-Type" with
      | some c => c
      | none => "text/html"
    | none => "text/html"

/-- Effective status of a canonical response (webob default 200). -/
def effStatus (r : Resp) : Int :=
  match r.status with
  | some n => n
  | none => 200

/-! ### Input shapes accepted by `makeResponse` -/

/-- One element of a return value, mirroring the runtime types
`makeResponse` inspects: `Response`, `int`, `str`, `bytes`, `dict`,
`list` of byte-like chunks, other iterables of byte-like chunks, and
anything else (`pOther`, an unrecognized type such as float or None). -/
inductive Part where
  | pResp (r : Resp)
  | pInt (n : Int)
  | pStr (s : String)
  | pBytes (b : Bytes)
  | pDict (d : List (String × String))
  | pList (chunks : List Chunk)
  | pIter (chunks : List Chunk)
  | pOther
deriving DecidableEq, Repr

/-- A value returned by a terminal callable: either a bare value or a
tuple of parts. -/
inductive PyVal where
  | single (p : Part)
  | tuple (parts : List Part)
deriving DecidableEq, Repr

/-- Simplified `json.dumps` on a string-valued mapping (exact JSON text
is irrelevant to the claims; the body must merely be a function of the
mapping). -/
def jsonDumps (d : List (String × String)) : String :=
  "\x7b" ++ String.intercalate ", " (d.map (fun kv => "\"" ++ kv.1 ++ "\": \"" ++ kv.2 ++ "\"")) ++ "\x7d"

/-- State of the left-to-right scan in `makeResponse` (WPApp.py lines
143-147): the five local variables. -/
structure ScanState where
  appIter : Option (List Bytes)
  text : Option String
  contentType : Option String
  status : Option Int
  headers : Option (List (String × String))
deriving DecidableEq, Repr

/-- The "body slot is already fixed" test (`app_iter is None and text is
None` negated). -/
def bodyFixed (s : ScanState) : Bool := s.appIter.isSome || s.text.isSome

/-- The second section of the scan body (WPApp.py lines 175-182):
a dict becomes the headers, an int the status, a str the content type;
anything else raises `ValueError`. -/
def scanTail (s : ScanState) (p : Part) : Except String ScanState :=
  match p with
  | .pDict d => .ok { s with headers := some d }
  | .pInt n => .ok { s with status := some n }
  | .pStr t => .ok { s with contentType := some t }
  | _ => .error "Can not convert to a Response"

/-- One iteration of the scan loop (WPApp.py lines 152-182).  While the
body slot is free, a dict / bytes / str / list / iterable fixes the body
(a dict also fixes the content type to text/json); any other part — and
every part once the body is fixed — falls through to `scanTail`. -/
def scanPart (s : ScanState) (p : Part) : Except String ScanState :=
  if bodyFixed s then scanTail s p
  else
    match p with
    | .pDict d => .ok { s with appIter := some [strBytes (jsonDumps d)], contentType := some "text/json" }
    | .pBytes b => .ok { s with appIter := some [b] }
    | .pStr t => .ok { s with text := some t }
    | .pList cs => .ok { s with appIter := some (cs.map to_bytes) }
    | .pIter cs => .ok { s with appIter := some (cs.map to_bytes) }
    | _ => scanTail s p

/-- The whole scan loop. -/
def scanParts (s : ScanState) : List Part → Except String ScanState
  | [] => .ok s
  | p :: ps =>
    match scanPart s p with
    | .error e => .error e
    | .ok s' => scanParts s' ps

/-- Building the response after the scan (WPApp.py lines 184-190):
the headers mapping is assigned if present; the content type is applied
after the headers and only when truthy (a non-empty string); the text is
applied when not `None`. -/
def finishScan (s : ScanState) : Resp :=
  { status := s.status
    headersMap := s.headers
    contentType :=
      match s.contentType with
      | some c => if c = "" then none else some c
      | none => none
    appIter := s.appIter
    text := s.text }

/-- Embeds `makeResponse` (WPApp.py lines 121-192).  An
already-canonical response passes through, a bare int becomes a
status-only response, every other value is wrapped into a
one-element tuple and scanned. -/
def makeResponse : PyVal → Except String Resp
  | .single (.pResp r) => .ok r
  | .single (.pInt n) =>
    .ok { status := some n, headersMap := none, contentType := none, appIter := none, text := none }
  | .single p =>
    match scanParts ⟨none, none, none, none, none⟩ [p] with
    | .error e => .error e
    | .ok s => .ok (finishScan s)
  | .tuple ps =>
    match scanParts ⟨none, none, none, none, none⟩ ps with
    | .error e => .error e
    | .ok s => .ok (finishScan s)

/-! ### Permission gate (`webmethod` decorator) -/

/-- Result of `handler._roles(request, relpath)`: Python may return a
single string or a list of strings. -/
inductive Roles where
  | oneStr (s : String)
  | listStr (l : List String)
deriving DecidableEq, Repr

/-- Outcome of invoking a decorated web method. -/
inductive GateOutcome (α : Type) where
  | forbidden (body : Option String)
  | invoked (a : α)
deriving DecidableEq, Repr

/-- Embeds the wrapper built by `webmethod(permissions)` (WPApp.py lines
63-78).  `rolesLookup` stands for the evaluation of
`handler._roles(request, relpath)` (`.error` = it raised); `call` stands
for the value the wrapped method would return. -/
def decorated {α : Type} (permissions : Option (List String))
    (rolesLookup : Except Unit Roles) (call : α) : GateOutcome α :=
  match permissions with
  | none => .invoked call
  | some perms =>
    match rolesLookup with
    | .error _ => .forbidden (some "Not authorized\n")
    | .ok r =>
      let roles := match r with | .oneStr s => [s] | .listStr l => l
      if roles.any (fun x => perms.contains x) then .invoked call
      else .forbidden none

/-! ### Query-string parsing (`WPApp.parseQuery`) -/

/-- A value stored in the parsed-query mapping: a single
value-or-`None`, or a list of them once the key repeats. -/
inductive QVal where
  | qOne (v : Option String)
  | qMany (vs : List (Option String))
deriving DecidableEq, Repr

/-- Lookup in the ordered mapping built by `parseQuery`. -/
def qlookup : List (String × QVal) → String → Option QVal
  | [], _ => none
  | (k', v') :: rest, k => if k' = k then some v' else qlookup rest k

/-- In-place update of an existing key (Python dict assignment keeps the
key's position); appends at the end if the key is absent. -/
def qset : List (String × QVal) → String → QVal → List (String × QVal)
  | [], k, v => [(k, v)]
  | (k', v') :: rest, k, v =>
    if k' = k then (k', v) :: rest else (k', v') :: qset rest k v

/-- Embeds `w.split("=", 1)` followed by the `k = words[0]` /
`v = words[1] if present` logic (WPApp.py lines 586-590). -/
def splitEq (w : String) : String × Option String :=
  match w.splitOn "=" with
  | [] => ("", none)
  | [k] => (k, none)
  | k :: rest => (k, some (String.intercalate "=" rest))

/-- One loop iteration of `parseQuery` for a kept pair (WPApp.py lines
591-598): a repeated key collects its values into a list, a fresh key is
stored with its single value. -/
def qinsert (out : List (String × QVal)) (k : String) (v : Option String) :
    List (String × QVal) :=
  match qlookup out k with
  | some (.qOne v0) => qset out k (.qMany [v0, v])
  | some (.qMany vs) => qset out k (.qMany (vs ++ [v]))
  | none => out ++ [(k, .qOne v)]

/-- The key/value occurrences `parseQuery` actually processes: `&`-pieces
that are non-empty and whose key part is non-empty (the `if w:` and
`if k:` guards). -/
def occurrencesOf (ws : List String) : List (String × Option String) :=
  ws.filterMap (fun w =>
    if w = "" then none
    else
      let kv := splitEq w
      if kv.1 = "" then none else some kv)

/-- The accumulation loop of `parseQuery` over the kept occurrences. -/
def parseLoop : List (String × Option String) → List (String × QVal) → List (String × QVal)
  | [], out => out
  | (k, v) :: rest, out => parseLoop rest (qinsert out k v)

/-- Embeds `WPApp.parseQuery` (WPApp.py lines 582-599), producing the
ordered mapping as an association list in dict insertion order. -/
def parseQuery (q : String) : List (String × QVal) :=
  parseLoop (occurrencesOf (q.splitOn "&")) []

/-- Occurrences of key/value pairs in a query string. -/
def queryOccurrences (q : String) : List (String × Option String) :=
  occurrencesOf (q.splitOn "&")

/-- All values of key `k` in a list of occurrences, in occurrence order. -/
def valuesOf (k : String) (occs : List (String × Option String)) : List (Option String) :=
  occs.filterMap (fun kv => if kv.1 = k then some kv.2 else none)

/-- Keys in first-seen order, skipping keys already seen. -/
def firstSeenKeys : List (String × Option String) → List String → List String
  | [], _ => []
  | (k, _) :: rest, seen =>
    if k ∈ seen then firstSeenKeys rest seen
    else k :: firstSeenKeys rest (k :: seen)

/-- Spec-side rendering of a key's value list: absent key ↦ nothing, a
unique occurrence ↦ its single value, repeats ↦ the ordered list. -/
def renderVals : List (Option String) → Option QVal
  | [] => none
  | [v] => some (.qOne v)
  | v :: vs => some (.qMany (v :: vs))

/-! ### Handler tree and `step_down` -/

mutual
/-- An attribute value a path segment can resolve to on a handler:
a callable attribute (with `tagged = true` when its docstring equals the
webmethod signature; `id` identifies the callable), a nested
`WPHandler`, or any other attribute value. -/
inductive Attr where
  | callableAttr (tagged : Bool) (id : Nat)
  | handlerAttr (h : HNode)
  | otherAttr

/-- A `WPHandler` as seen by resolution: its `_Strict` flag, whether the
instance is itself callable (defines `__call__`, with `callId`
identifying it), its `_MethodNames` list, its `_WebMethods` registry
(name ↦ callable id), and its attribute dictionary. -/
inductive HNode where
  | mk (strict : Bool) (isCallable : Bool) (callId : Nat)
       (methodNames : Option (List String))
       (webMethods : List (String × Nat))
       (attrs : List (String × Attr))
end

/-- The `_Strict` flag. -/
def HNode.strict : HNode → Bool
  | .mk s _ _ _ _ _ => s

/-- Whether the handler instance is itself callable. -/
def HNode.isCallable : HNode → Bool
  | .mk _ c _ _ _ _ => c

/-- Identifier of the handler's own `__call__`. -/
def HNode.callId : HNode → Nat
  | .mk _ _ i _ _ _ => i

/-- The `_MethodNames` class attribute. -/
def HNode.methodNames : HNode → Option (List String)
  | .mk _ _ _ m _ _ => m

/-- The `_WebMethods` registry. -/
def HNode.webMethods : HNode → List (String × Nat)
  | .mk _ _ _ _ w _ => w

/-- The attribute dictionary consulted by `hasattr`/`getattr`. -/
def HNode.attrs : HNode → List (String × Attr)
  | .mk _ _ _ _ _ a => a

/-- Whether `name in self._MethodNames` holds with `_MethodNames` not
`None` (the first disjunct of the strict-mode gate). -/
def inMethodNames (h : HNode) (name : String) : Bool :=
  match h.methodNames with
  | some l => l.contains name
  | none => false

/-- The `allowed` gate for a callable attribute found via `hasattr`
(WPApp.py lines 225-234).  In non-strict mode everything is allowed.  In
strict mode, if the first disjunct (`name in _MethodNames`) fails,
Python evaluates `hasattr(method, "__doc__")` — but no variable `method`
is in scope in `step_down`, so a `NameError` is raised (modelled as
`.error ()`). -/
def strictGate (h : HNode) (name : String) (a : Attr) : Except Unit (Option Attr) :=
  if h.strict = false then .ok (some a)
  else if inMethodNames h name then .ok (some a)
  else .error ()

/-- Whether `callable(attr)` holds for an attribute value (a nested
handler is callable exactly when it defines `__call__`). -/
def attrCallable : Attr → Bool
  | .callableAttr _ _ => true
  | .handlerAttr h => h.isCallable
  | .otherAttr => false

/-- Embeds `WPHandler.step_down` (WPApp.py lines 213-239).  `hasattr`
wins over the `_WebMethods` registry; a registered name is always
allowed; a callable attribute passes through the strict-mode gate; a
non-callable nested handler is returned; anything else yields `None`. -/
def step_down (h : HNode) (name : String) : Except Unit (Option Attr) :=
  match alookup h.attrs name with
  | some a =>
    if attrCallable a then strictGate h name a
    else
      match a with
      | .handlerAttr hh => .ok (some (.handlerAttr hh))
      | _ => .ok none
  | none =>
    match alookup h.webMethods name with
    | some i => .ok (some (.callableAttr false i))
    | none => .ok none

/-! ### Path resolution (`WPApp.find_web_method` and `wsgi_call`) -/

/-- Result of resolution: a terminal callable (or `none` for not-found)
with its relpath, or a redirect (`raise HTTPFound`). -/
inductive Outcome where
  | found (callable : Option Nat) (relpath : String)
  | redirect (target : String)
deriving DecidableEq, Repr

/-- Embeds `path = path or "/"`. -/
def orSlash (p : String) : String := if p = "" then "/" else p

/-- Embeds `path.endswith("/")` (for the one-character suffix `/`, a
test on the final character; `String.endsWith` itself does not reduce in
the kernel). -/
def endsSlash (p : String) : Bool :=
  match p.data.getLast? with
  | some c => c == '/'
  | none => false

/-- Embeds `if not path.endswith("/"): path = path + "/"`. -/
def ensureSlash (p : String) : String := if endsSlash p then p else p ++ "/"

/-- The tail of `find_web_method` once descent is over (WPApp.py lines
571-580): a callable handler is the method; a non-callable handler with
no remaining path raises a redirect to the accumulated path (with a
trailing slash ensured) plus the default method name; otherwise the
method is `None` (not found), with the remaining segments joined as the
relpath. -/
def handlerTail (dm : String) (h : HNode) (path : String) (pd : List String) : Outcome :=
  if h.isCallable then .found (some h.callId) (String.intercalate "/" pd)
  else if pd.isEmpty then .redirect (ensureSlash path ++ dm)
  else .found none (String.intercalate "/" pd)

/-- Embeds `WPApp.find_web_method` (WPApp.py lines 547-580), with `dm`
the configured default method name.  Descent steps down through handler
nodes as long as segments remain and `step_down` finds an attribute; a
`NameError` from `step_down` propagates. -/
def findWebMethod (dm : String) : List String → Attr → String → Except Unit Outcome
  | pd, .callableAttr _ i, _ => .ok (.found (some i) (String.intercalate "/" pd))
  | pd, .otherAttr, _ => .ok (.found none (String.intercalate "/" pd))
  | [], .handlerAttr h, path0 => .ok (handlerTail dm h (orSlash path0) [])
  | name :: rest, .handlerAttr h, path0 =>
    match step_down h name with
    | .error e => .error e
    | .ok (some attr) =>
      findWebMethod dm rest attr (ensureSlash (orSlash path0) ++ name)
    | .ok none => .ok (handlerTail dm h (orSlash path0) (name :: rest))

/-- Embeds Python's `path.split("/")` on the character list of a path. -/
def splitSlash : List Char → List (List Char)
  | [] => [[]]
  | c :: cs =>
    if c = '/' then [] :: splitSlash cs
    else
      match splitSlash cs with
      | [] => [[c]]
      | s :: rest => (c :: s) :: rest

/-- Embeds the segment preparation in `WPApp.wsgi_call` (WPApp.py lines
603-606): split the path on `/` and remove every empty segment. -/
def pathDown (p : String) : List String :=
  ((splitSlash p.data).filter (fun l => !l.isEmpty)).map (fun l => String.mk l)

/-- Resolution as performed by `wsgi_call`: the root handler, the
filtered segments, and the empty accumulated path. -/
def wsgiResolve (dm : String) (root : Attr) (p : String) : Except Unit Outcome :=
  findWebMethod dm (pathDown p) root ""

/-! ### One-time initialization guard (`WPApp.__call__`) -/

/-- The per-application state relevant to the initialization guard. -/
structure AppState where
  Initialized : Bool
deriving DecidableEq, Repr

/-- Observable steps of the guarded block. -/
inductive InitStep where
  | resolveScriptHome
  | callInit
deriving DecidableEq, Repr, BEq

/-- Embeds the initialization guard in `WPApp.__call__` (WPApp.py lines
661-669): when the flag is clear, the script home is resolved, `init()`
is called (line 666), the flag is set, and `init()` is called again
(line 669); when the flag is set, nothing runs. -/
def initGuard (s : AppState) : AppState × List InitStep :=
  if s.Initialized then (s, [])
  else ({ Initialized := true }, [.resolveScriptHome, .callInit, .callInit])

/-- The concatenated trace of the guard over a sequence of `n` requests
handled by the same `WPApp` instance. -/
def requestTrace : Nat → AppState → List InitStep
  | 0, _ => []
  | n + 1, s =>
    let r := initGuard s
    r.2 ++ requestTrace n r.1

/-- Total number of `init()` calls across `n` requests on a freshly
constructed application (`Initialized = False`). -/
def initCallCount (n : Nat) : Nat :=
  (requestTrace n { Initialized := false }).count InitStep.callInit

/-! ### Recursive teardown (`WPHandler._destroy`) -/

mutual
/-- Embeds `WPHandler._destroy` (WPApp.py lines 266-276) on a finite
graph of handlers: node `v` returns at once when already marked
`BeingDestroyed`; otherwise it marks itself, processes its
handler-valued attributes in order, and clears the mark.  The result is
the final mark set together with the list of nodes on which `destroy()`
was called (one event per call); `none` means the fuel ran out. -/
def destroyNode {n : Nat} (children : Fin n → List (Fin n)) :
    Nat → Fin n → Finset (Fin n) → Option (Finset (Fin n) × List (Fin n))
  | 0, _, _ => none
  | fuel + 1, v, marked =>
    if v ∈ marked then some (marked, [])
    else
      match destroyKids children fuel (children v) (insert v marked) with
      | none => none
      | some (m, evs) => some (m.erase v, evs)
termination_by fuel _v _m => (fuel, 0)

/-- The `for k in self.__dict__` loop of `_destroy`: each handler-valued
attribute `c` gets `c.destroy()` (recorded as an event) followed by
`c._destroy()`. -/
def destroyKids {n : Nat} (children : Fin n → List (Fin n)) :
    Nat → List (Fin n) → Finset (Fin n) → Option (Finset (Fin n) × List (Fin n))
  | _, [], marked => some (marked, [])
  | fuel, c :: cs, marked =>
    match destroyNode children fuel c marked with
    | none => none
    | some (m, evs) =>
      match destroyKids children fuel cs m with
      | none => none
      | some (m2, evs2) => some (m2, (c :: evs) ++ evs2)
termination_by fuel cs _m => (fuel, cs.length + 1)
end

/-! ### C1: the one-time initialization guard -/

/-- Once the flag is set, later requests run no initialization step at
all. -/
theorem requestTrace_initialized : ∀ n, requestTrace n { Initialized := true } = [] := by
  intro n
  induction n with
  | zero => rfl
  | succ n ih => simp [requestTrace, initGuard, ih]

/-- C1 (evidence of the code bug): across any non-empty sequence of
requests handled by one `WPApp` instance, `init()` is invoked exactly
twice in total — both calls during the first request (WPApp.py lines 666
and 669) — instead of the single invocation the specification's
"runs exactly once" demands.  Later requests never re-run it. -/
theorem c1_first_request_calls_init_twice : ∀ n : Nat, initCallCount (n + 1) = 2 := by
  intro n
  simp [initCallCount, requestTrace, initGuard, requestTrace_initialized]
  rfl

/-! ### C6: the permission gate -/

/-- Coercion of a fetched roles value to a list (a bare string is
treated as a one-element list). -/
def rolesList : Roles → List String
  | .oneStr s => [s]
  | .listStr l => l

/-- Permission gate as the claim states it: no required set means no
check; a faulting role lookup denies (fail-closed); a non-empty
intersection between fetched roles and the required set lets the wrapped
method run; anything else is Forbidden. -/
def gateSpecC6 {α : Type} (permissions : Option (List String))
    (rolesLookup : Except Unit Roles) (call : α) : GateOutcome α :=
  match permissions with
  | none => .invoked call
  | some req =>
    match rolesLookup with
    | .error _ => .forbidden (some "Not authorized\n")
    | .ok r =>
      if ∃ x ∈ rolesList r, x ∈ req then .invoked call else .forbidden none

/-- C6: the `webmethod` wrapper behaves exactly as the claim describes —
`permissions=None` invokes the wrapped method unchecked; a raising
role lookup yields Forbidden without invoking; fetched roles (a string
counting as a one-element list) intersecting the required set invoke the
method; disjoint roles yield Forbidden. -/
theorem c6_permission_gate {α : Type} (permissions : Option (List String))
    (rolesLookup : Except Unit Roles) (call : α) :
    decorated permissions rolesLookup call = gateSpecC6 permissions rolesLookup call := by
  cases permissions with
  | none => rfl
  | some req =>
    cases rolesLookup with
    | error e => rfl
    | ok r =>
      simp only [decorated, gateSpecC6, rolesList]
      rcases r with s | l <;>
        · split <;> split <;> first
            | rfl
            | (rename_i h1 h2
               exfalso
               simp only [List.any_eq_true, List.elem_eq_mem, decide_eq_true_eq] at h1 h2
               tauto)

/-! ### C7: trailing-slash insensitivity of resolution -/

/-- Splitting never produces an empty list of segments. -/
theorem splitSlash_ne_nil : ∀ l : List Char, splitSlash l ≠ [] := by
  intro l
  cases l with
  | nil => simp [splitSlash]
  | cons c cs =>
    simp only [splitSlash]
    split
    · simp
    · cases h : splitSlash cs <;> simp

/-- Appending a trailing slash appends one empty segment to the split. -/
theorem splitSlash_append_slash :
    ∀ l : List Char, splitSlash (l ++ ['/']) = splitSlash l ++ [[]] := by
  intro l
  induction l with
  | nil => rfl
  | cons c cs ih =>
    by_cases hc : c = '/'
    · subst hc
      simp [splitSlash, ih]
    · obtain ⟨s, rest, h⟩ : ∃ s rest, splitSlash cs = s :: rest := by
        rcases hh : splitSlash cs with _ | ⟨s, rest⟩
        · exact absurd hh (splitSlash_ne_nil cs)
        · exact ⟨_, _, rfl⟩
      simp [splitSlash, hc, ih, h]

/-- Empty segments produced by a trailing slash are filtered out before
resolution begins. -/
theorem pathDown_append_slash (p : String) : pathDown (p ++ "/") = pathDown p := by
  simp [pathDown, String.data_append, splitSlash_append_slash]

/-- C7: for every handler tree and every path, resolution of the path
with a trailing slash appended is identical — same terminal callable and
relpath, same redirect target, or same not-found — to resolution of the
path without it. -/
theorem c7_trailing_slash_irrelevant (dm : String) (root : Attr) (p : String) :
    wsgiResolve dm root (p ++ "/") = wsgiResolve dm root p := by
  simp [wsgiResolve, pathDown_append_slash]

/-! ### C8: redirect for a non-callable handler with no remaining path -/

/-- C8: whenever resolution reaches a non-callable handler node with no
remaining path segments, it signals a redirect whose target is the
accumulated path — with a trailing slash ensured (`"/"` when the
accumulated path is empty) — followed by the configured default method
name. -/
theorem c8_redirect_to_default_method (dm : String) (h : HNode) (p : String)
    (hc : h.isCallable = false) :
    findWebMethod dm [] (.handlerAttr h) p = .ok (.redirect (ensureSlash (orSlash p) ++ dm)) := by
  simp [findWebMethod, handlerTail, hc]

/-- A non-callable, non-strict handler node with no attributes. -/
def exLeaf : HNode := .mk false false 0 none [] []

/-- Witness for C8: resolving with accumulated path `/a` and default
method `index` redirects to `/a/index`. -/
theorem c8_redirect_witness :
    findWebMethod "index" [] (.handlerAttr exLeaf) "/a" = .ok (.redirect "/a/index") := by
  have h := c8_redirect_to_default_method "index" exLeaf "/a" rfl
  rw [h]
  rfl

/-! ### C10: non-strict `step_down` exposes every callable attribute -/

/-- C10: on a non-strict handler, any callable attribute — its name may
begin with an underscore, no public-name filter exists — is returned by
`step_down`, and one further resolution step turns it into the terminal
callable with empty relpath. -/
theorem c10_nonstrict_any_callable (dm path : String) (h : HNode) (name : String)
    (tg : Bool) (i : Nat)
    (hs : h.strict = false)
    (ha : alookup h.attrs name = some (.callableAttr tg i)) :
    step_down h name = .ok (some (.callableAttr tg i)) ∧
    findWebMethod dm [name] (.handlerAttr h) path = .ok (.found (some i) "") := by
  have hstep : step_down h name = .ok (some (.callableAttr tg i)) := by
    simp [step_down, ha, attrCallable, strictGate, hs]
  refine ⟨hstep, ?_⟩
  simp [findWebMethod, hstep]
  rfl

/-- A non-strict handler whose attribute dictionary holds the framework
method `_destroy` (callable id 7), as every `WPHandler` instance does. -/
def exPlain : HNode := .mk false false 0 none [] [("_destroy", .callableAttr false 7)]

/-- Witness for C10: the segment `_destroy` resolves to the framework
method on a non-strict handler. -/
theorem c10_nonstrict_witness :
    step_down exPlain "_destroy" = .ok (some (.callableAttr false 7)) ∧
    findWebMethod "index" ["_destroy"] (.handlerAttr exPlain) "/" = .ok (.found (some 7) "") :=
  c10_nonstrict_any_callable "index" "/" exPlain "_destroy" false 7 rfl rfl

/-! ### C4: strict-mode tagged-web-method check faults -/

/-- C4 (evidence of the code bug): in strict mode, a callable attribute
that is not listed in `_MethodNames` never reaches the tagged-web-method
test intact — `step_down` evaluates `hasattr(method, "__doc__")` with no
variable `method` in scope (WPApp.py line 230) and raises `NameError`
instead of returning the tagged callable. -/
theorem c4_strict_tagged_raises_nameerror (h : HNode) (name : String) (i : Nat)
    (hs : h.strict = true)
    (ha : alookup h.attrs name = some (.callableAttr true i))
    (hm : inMethodNames h name = false) :
    step_down h name = .error () := by
  simp [step_down, ha, attrCallable, strictGate, hs, hm]

/-- A strict handler with a single callable attribute `m` tagged with
the webmethod signature, not listed in `_MethodNames`. -/
def exStrict : HNode := .mk true false 0 none [] [("m", .callableAttr true 3)]

/-- Witness for C4: `step_down` on the tagged method name raises. -/
theorem c4_nameerror_witness : step_down exStrict "m" = .error () :=
  c4_strict_tagged_raises_nameerror exStrict "m" 3 rfl rfl rfl

/-! ### C2: which inputs make coercion fail -/

/-- The shapes on which the scan faults, as a single pass tracking only
whether the body slot is fixed: while the body is free, the five body
shapes fix it and an int is absorbed as status, anything else
(`Response`-in-tuple, unrecognized types) faults; once the body is
fixed, a dict, int or str is absorbed (headers / status / content-type)
and any further body-only shape (bytes, list, iterable) or unrecognized
type faults. -/
def failsAux : Bool → List Part → Bool
  | _, [] => false
  | true, p :: ps =>
    match p with
    | .pDict _ => failsAux true ps
    | .pInt _ => failsAux true ps
    | .pStr _ => failsAux true ps
    | _ => true
  | false, p :: ps =>
    match p with
    | .pDict _ => failsAux true ps
    | .pBytes _ => failsAux true ps
    | .pStr _ => failsAux true ps
    | .pList _ => failsAux true ps
    | .pIter _ => failsAux true ps
    | .pInt _ => failsAux false ps
    | _ => true

/-- Spec-side characterization of the inputs on which coercion fails
with an invalid-response error.  A bare canonical response or integer
never fails; every other input fails exactly when `failsAux` says so. -/
def shapeFails : PyVal → Bool
  | .single (.pResp _) => false
  | .single (.pInt _) => false
  | .single p => failsAux false [p]
  | .tuple ps => failsAux false ps

/-- Evaluation of `Except.isOk` on a success. -/
theorem isOk_ok {ε α : Type} (a : α) : (Except.ok a : Except ε α).isOk = true := rfl

/-- Evaluation of `Except.isOk` on a failure. -/
theorem isOk_error {ε α : Type} (e : ε) : (Except.error e : Except ε α).isOk = false := rfl

/-- Setting the headers leaves the body slot unchanged. -/
theorem bodyFixed_headers (s : ScanState) (d : List (String × String)) :
    bodyFixed { s with headers := some d } = bodyFixed s := rfl

/-- Setting the status leaves the body slot unchanged. -/
theorem bodyFixed_status (s : ScanState) (n : Int) :
    bodyFixed { s with status := some n } = bodyFixed s := rfl

/-- Setting the content type leaves the body slot unchanged. -/
theorem bodyFixed_ct (s : ScanState) (c : String) :
    bodyFixed { s with contentType := some c } = bodyFixed s := rfl

/-- Assigning `app_iter` fixes the body slot. -/
theorem bodyFixed_appIter (s : ScanState) (x : List Bytes) :
    bodyFixed { s with appIter := some x } = true := by simp [bodyFixed]

/-- Assigning the text fixes the body slot. -/
theorem bodyFixed_text (s : ScanState) (t : String) :
    bodyFixed { s with text := some t } = true := by simp [bodyFixed]

/-- Absorbing a dict body fixes the body slot. -/
theorem bodyFixed_dict (s : ScanState) (x : List Bytes) (c : String) :
    bodyFixed { s with appIter := some x, contentType := some c } = true := by
  simp [bodyFixed]

/-- The scan loop succeeds exactly when `failsAux` (seeded with the
current body-slot state) accepts the remaining parts. -/
theorem scanParts_isOk : ∀ (ps : List Part) (s : ScanState),
    (scanParts s ps).isOk = !failsAux (bodyFixed s) ps := by
  intro ps
  induction ps with
  | nil => intro s; simp [scanParts, failsAux, isOk_ok]
  | cons p ps ih =>
    intro s
    cases hb : bodyFixed s <;> cases p <;>
      simp only [scanParts, scanPart, scanTail, failsAux, hb, ih, isOk_ok, isOk_error,
                 bodyFixed_headers, bodyFixed_status, bodyFixed_ct, bodyFixed_appIter,
                 bodyFixed_text, bodyFixed_dict, Bool.not_true, Bool.not_false,
                 if_true, if_false, Bool.false_eq_true, reduceIte]

/-- C2 counterexample: a tuple with a second body-like element — two
text strings — does NOT fail: the second string is absorbed as the
content-type, so `("a", "b")` coerces to a canonical response with body
text `a` and content type `b` (the documented `(text, "content_type")`
shape). -/
theorem c2_second_bodylike_accepted :
    makeResponse (.tuple [.pStr "a", .pStr "b"]) =
      .ok { status := none, headersMap := none, contentType := some "b",
            appIter := none, text := some "a" } := by
  rfl

/-- C2 (amended): coercion fails with an invalid-response error iff the
input contains an element of unrecognized type (including a canonical
response nested in a tuple), or a bytes / list / lazy-sequence element
at a position where the body is already fixed; a string or mapping after
the body is reinterpreted as content-type or headers rather than
failing, and every other enumerated shape coerces successfully. -/
theorem c2_failure_characterization (v : PyVal) :
    (makeResponse v).isOk = !shapeFails v := by
  cases v with
  | single p =>
    cases p <;>
      simp [makeResponse, shapeFails, failsAux, scanParts, scanPart, scanTail,
            bodyFixed, isOk_ok, isOk_error]
  | tuple ps =>
    have h := scanParts_isOk ps ⟨none, none, none, none, none⟩
    simp only [makeResponse, shapeFails]
    cases hs : scanParts ⟨none, none, none, none, none⟩ ps <;>
      rw [hs] at h <;> exact h

/-! ### C5: fields of a canonical response built from a tuple -/

/-- Whether a part is body-like (fixes the body slot when the slot is
still free): text, bytes, a mapping, or a finite/lazy chunk sequence. -/
def bodyKind : Part → Bool
  | .pStr _ => true
  | .pBytes _ => true
  | .pDict _ => true
  | .pList _ => true
  | .pIter _ => true
  | _ => false

/-- Whether a part can follow the body as a modifier: an integer
(status), a mapping (headers) or a string (content-type). -/
def modKind : Part → Bool
  | .pInt _ => true
  | .pDict _ => true
  | .pStr _ => true
  | _ => false

/-- The integer elements of a part list, in order. -/
def intsOf (ps : List Part) : List Int :=
  ps.filterMap (fun p => match p with | .pInt n => some n | _ => none)

/-- The mapping elements of a part list, in order. -/
def dictsOf (ps : List Part) : List (List (String × String)) :=
  ps.filterMap (fun p => match p with | .pDict d => some d | _ => none)

/-- The string elements of a part list, in order. -/
def strsOf (ps : List Part) : List String :=
  ps.filterMap (fun p => match p with | .pStr t => some t | _ => none)

/-- Last element of a list, with a default: the value left in a scan
variable after successive overwrites. -/
def lastO {α : Type} : List α → Option α → Option α
  | [], d => d
  | x :: l, _ => lastO l (some x)

/-- The `app_iter` a body-like part establishes. -/
def bodyAppIter : Part → Option (List Bytes)
  | .pBytes bs => some [bs]
  | .pDict d => some [strBytes (jsonDumps d)]
  | .pList cs => some (cs.map to_bytes)
  | .pIter cs => some (cs.map to_bytes)
  | _ => none

/-- The text a body-like part establishes. -/
def bodyText : Part → Option String
  | .pStr t => some t
  | _ => none

/-- The content type a body-like part establishes (`text/json` for a
mapping body, nothing otherwise). -/
def bodyCT : Part → Option String
  | .pDict _ => some "text/json"
  | _ => none

/-- Scanning a run of integers before the body merely overwrites the
status variable. -/
theorem scanParts_ints : ∀ (l : List Int) (s : ScanState) (rest : List Part),
    bodyFixed s = false →
    scanParts s (l.map Part.pInt ++ rest) =
      scanParts { s with status := lastO l s.status } rest := by
  intro l
  induction l with
  | nil => intro s rest _; rfl
  | cons n t ih =>
    intro s rest hb
    have h1 : scanPart s (.pInt n) = .ok { s with status := some n } := by
      simp [scanPart, hb, scanTail]
    simp only [List.map_cons, List.cons_append, scanParts, h1, lastO]
    exact ih { s with status := some n } rest hb

/-- Scanning modifier parts after the body overwrites the content-type,
status and headers variables, last occurrence winning. -/
theorem scanParts_post : ∀ (post : List Part) (s : ScanState),
    bodyFixed s = true → post.all modKind = true →
    scanParts s post = .ok { s with
      contentType := lastO (strsOf post) s.contentType,
      status := lastO (intsOf post) s.status,
      headers := lastO (dictsOf post) s.headers } := by
  intro post
  induction post with
  | nil => intro s _ _; rfl
  | cons p ps ih =>
    intro s hb hall
    rw [List.all_cons] at hall
    have hp := (Bool.and_eq_true _ _).mp hall
    cases p with
    | pInt n =>
      have h1 : scanPart s (.pInt n) = .ok { s with status := some n } := by
        simp [scanPart, hb, scanTail]
      simp only [scanParts, h1]
      rw [ih { s with status := some n } (by rw [bodyFixed_status]; exact hb) hp.2]
      simp [strsOf, intsOf, dictsOf, lastO]
    | pDict d =>
      have h1 : scanPart s (.pDict d) = .ok { s with headers := some d } := by
        simp [scanPart, hb, scanTail]
      simp only [scanParts, h1]
      rw [ih { s with headers := some d } (by rw [bodyFixed_headers]; exact hb) hp.2]
      simp [strsOf, intsOf, dictsOf, lastO]
    | pStr t =>
      have h1 : scanPart s (.pStr t) = .ok { s with contentType := some t } := by
        simp [scanPart, hb, scanTail]
      simp only [scanParts, h1]
      rw [ih { s with contentType := some t } (by rw [bodyFixed_ct]; exact hb) hp.2]
      simp [strsOf, intsOf, dictsOf, lastO]
    | pResp r => simp [modKind] at hp
    | pBytes bs => simp [modKind] at hp
    | pList cs => simp [modKind] at hp
    | pIter cs => simp [modKind] at hp
    | pOther => simp [modKind] at hp

/-- Full decomposition of `makeResponse` on a tuple of the form
"integers, then one body-like element, then modifiers": each scan
variable is determined by the corresponding elements. -/
theorem makeResponse_decomposed (preInts : List Int) (b : Part) (post : List Part)
    (hbk : bodyKind b = true) (hall : post.all modKind = true) :
    makeResponse (.tuple (preInts.map Part.pInt ++ b :: post)) =
      .ok (finishScan
        { appIter := bodyAppIter b
          text := bodyText b
          contentType := lastO (strsOf post) (bodyCT b)
          status := lastO (intsOf post) (lastO preInts none)
          headers := lastO (dictsOf post) none }) := by
  simp only [makeResponse]
  rw [scanParts_ints preInts ⟨none, none, none, none, none⟩ (b :: post) rfl]
  cases b with
  | pStr t =>
    have h1 : scanPart ⟨none, none, none, lastO preInts none, none⟩ (.pStr t) =
        .ok ⟨none, some t, none, lastO preInts none, none⟩ := by
      simp [scanPart, bodyFixed]
    simp only [scanParts, h1]
    rw [scanParts_post post _ (by simp [bodyFixed]) hall]
    rfl
  | pBytes bs =>
    have h1 : scanPart ⟨none, none, none, lastO preInts none, none⟩ (.pBytes bs) =
        .ok ⟨some [bs], none, none, lastO preInts none, none⟩ := by
      simp [scanPart, bodyFixed]
    simp only [scanParts, h1]
    rw [scanParts_post post _ (by simp [bodyFixed]) hall]
    rfl
  | pDict d =>
    have h1 : scanPart ⟨none, none, none, lastO preInts none, none⟩ (.pDict d) =
        .ok ⟨some [strBytes (jsonDumps d)], none, some "text/json", lastO preInts none, none⟩ := by
      simp [scanPart, bodyFixed]
    simp only [scanParts, h1]
    rw [scanParts_post post _ (by simp [bodyFixed]) hall]
    rfl
  | pList cs =>
    have h1 : scanPart ⟨none, none, none, lastO preInts none, none⟩ (.pList cs) =
        .ok ⟨some (cs.map to_bytes), none, none, lastO preInts none, none⟩ := by
      simp [scanPart, bodyFixed]
    simp only [scanParts, h1]
    rw [scanParts_post post _ (by simp [bodyFixed]) hall]
    rfl
  | pIter cs =>
    have h1 : scanPart ⟨none, none, none, lastO preInts none, none⟩ (.pIter cs) =
        .ok ⟨some (cs.map to_bytes), none, none, lastO preInts none, none⟩ := by
      simp [scanPart, bodyFixed]
    simp only [scanParts, h1]
    rw [scanParts_post post _ (by simp [bodyFixed]) hall]
    rfl
  | pResp r => simp [bodyKind] at hbk
  | pInt n => simp [bodyKind] at hbk
  | pOther => simp [bodyKind] at hbk

/-- C5 counterexample: for the tuple `({"a": "1"}, {"Content-Type":
"text/xml"})` — exactly one body-like element (the first mapping), no
integer, one headers mapping, no string — the claim requires the
content type implied by the headers (`text/xml`), but the coercion
yields `text/json`: the mapping body's content type is applied after
the headers and overrides them. -/
theorem c5_dict_body_beats_headers :
    Except.map effContentType
      (makeResponse (.tuple [.pDict [("a", "1")], .pDict [("Content-Type", "text/xml")]]))
      = .ok "text/json" ∧ "text/json" ≠ "text/xml" := by
  constructor
  · rfl
  · decide

/-- Content type of the canonical response under the amended claim: a
non-empty string element wins; an empty string element is dropped (the
truthiness test), falling back; with no usable string, a mapping body
forces `text/json` (overriding the headers); otherwise the content type
implied by the headers mapping, else the format default. -/
def specCT (b : Part) (post : List Part) : String :=
  let df : String :=
    match (dictsOf post).head? with
    | some h =>
      match alookup h "Content-Type" with
      | some c => c
      | none => "text/html"
    | none => "text/html"
  match (strsOf post).head? with
  | some c => if c = "" then df else c
  | none =>
    match b with
    | .pDict _ => "text/json"
    | _ => df

/-- A scan variable written at most once holds the unique value. -/
theorem lastO_single {α : Type} (l : List α) (h : l.length ≤ 1) :
    lastO l none = l.head? := by
  match l with
  | [] => rfl
  | [x] => rfl
  | x :: y :: t =>
    simp only [List.length_cons] at h
    omega

/-- A scan variable never written keeps its seed. -/
theorem lastO_head_none {α : Type} (l : List α) (d : Option α) (h : l.head? = none) :
    lastO l d = d := by
  cases l with
  | nil => rfl
  | cons x t => simp at h

/-- A scan variable written exactly once holds that value. -/
theorem lastO_head_single {α : Type} (l : List α) (d : Option α) (x : α)
    (h : l.head? = some x) (h1 : l.length ≤ 1) : lastO l d = some x := by
  match l with
  | [] => simp at h
  | [y] =>
    simp only [List.head?_cons, Option.some_inj] at h
    subst h; rfl
  | y :: z :: t =>
    simp only [List.length_cons] at h1
    omega

/-- Status variable after at most one integer in total. -/
theorem lastO_status (l1 l2 : List Int) (h : l1.length + l2.length ≤ 1) :
    lastO l2 (lastO l1 none) = (l1 ++ l2).head? := by
  match l1, l2 with
  | [], [] => rfl
  | [], i :: t =>
    have ht : t = [] := by
      cases t with
      | nil => rfl
      | cons a b =>
        simp only [List.length_cons, List.length_nil] at h
        omega
    subst ht; rfl
  | n :: t, [] =>
    have ht : t = [] := by
      cases t with
      | nil => rfl
      | cons a b =>
        simp only [List.length_cons, List.length_nil] at h
        omega
    subst ht; rfl
  | n :: t, i :: u =>
    simp only [List.length_cons] at h
    omega

/-- C5 (amended): for a tuple consisting of integers, then exactly one
body-like element, then at most one further integer / mapping / string
in any order (at most one integer in total), the canonical response has
status = the integer if present else the default 200, headers = the
mapping if present else empty, and content type per `specCT`: the
string element if present and non-empty, else `text/json` when the body
element is a mapping (overriding the headers), else the content type
implied by the headers mapping, else the format default. -/
theorem c5_tuple_fields (preInts : List Int) (b : Part) (post : List Part)
    (hbk : bodyKind b = true)
    (hall : post.all modKind = true)
    (hni : preInts.length + (intsOf post).length ≤ 1)
    (hnd : (dictsOf post).length ≤ 1)
    (hns : (strsOf post).length ≤ 1) :
    ∃ r, makeResponse (.tuple (preInts.map Part.pInt ++ b :: post)) = .ok r ∧
      effStatus r = ((preInts ++ intsOf post).head?.getD 200) ∧
      r.headersMap.getD [] = ((dictsOf post).head?.getD []) ∧
      effContentType r = specCT b post := by
  refine ⟨_, makeResponse_decomposed preInts b post hbk hall, ?_, ?_, ?_⟩
  · rw [show ∀ s : ScanState, effStatus (finishScan s) = s.status.getD 200 from ?_]
    · simp only [lastO_status preInts (intsOf post) hni]
    · intro s
      cases h : s.status <;> simp [effStatus, finishScan, h]
  · simp only [finishScan, lastO_single (dictsOf post) hnd]
  · rw [lastO_single (dictsOf post) hnd]
    rcases hS : (strsOf post).head? with _ | c
    · rw [lastO_head_none (strsOf post) (bodyCT b) hS]
      cases b with
      | pDict d' => simp [finishScan, effContentType, specCT, bodyCT, hS]
      | pStr t =>
        rcases hD : (dictsOf post).head? with _ | d <;>
          simp [finishScan, effContentType, specCT, bodyCT, hS, hD]
      | pBytes bs =>
        rcases hD : (dictsOf post).head? with _ | d <;>
          simp [finishScan, effContentType, specCT, bodyCT, hS, hD]
      | pList cs =>
        rcases hD : (dictsOf post).head? with _ | d <;>
          simp [finishScan, effContentType, specCT, bodyCT, hS, hD]
      | pIter cs =>
        rcases hD : (dictsOf post).head? with _ | d <;>
          simp [finishScan, effContentType, specCT, bodyCT, hS, hD]
      | pResp r => simp [bodyKind] at hbk
      | pInt n => simp [bodyKind] at hbk
      | pOther => simp [bodyKind] at hbk
    · rw [lastO_head_single (strsOf post) (bodyCT b) c hS hns]
      by_cases hc : c = ""
      · subst hc
        rcases hD : (dictsOf post).head? with _ | d <;>
          simp [finishScan, effContentType, specCT, hS, hD]
      · simp [finishScan, effContentType, specCT, hS, hc]

/-- Witness for C5: the tuple `(b"x", 201, {"X": "y"}, "text/csv")`
yields status 201, headers `{"X": "y"}` and content type `text/csv`. -/
theorem c5_tuple_fields_witness :
    ∃ r, makeResponse (.tuple [.pBytes [120], .pInt 201, .pDict [("X", "y")], .pStr "text/csv"])
        = .ok r ∧
      effStatus r = 201 ∧
      r.headersMap.getD [] = [("X", "y")] ∧
      effContentType r = "text/csv" := by
  obtain ⟨r, h1, h2, h3, h4⟩ :=
    c5_tuple_fields [] (.pBytes [120]) [.pInt 201, .pDict [("X", "y")], .pStr "text/csv"]
      rfl rfl (by decide) (by decide) (by decide)
  exact ⟨r, h1, h2.trans (by rfl), h3.trans (by rfl), h4.trans (by rfl)⟩

/-! ### C3: recursive teardown terminates; the mark is only a stack guard -/

/-- Teardown leaves the mark set as it found it: every node unmarks
itself on the way out. -/
theorem destroy_preserve {n : Nat} (children : Fin n → List (Fin n)) (fuel : Nat) :
    (∀ (v : Fin n) (m : Finset (Fin n)) r, destroyNode children fuel v m = some r → r.1 = m) ∧
    (∀ (cs : List (Fin n)) (m : Finset (Fin n)) r, destroyKids children fuel cs m = some r → r.1 = m) := by
  induction fuel with
  | zero =>
    constructor
    · intro v m r h
      simp [destroyNode] at h
    · intro cs m r h
      cases cs with
      | nil =>
        simp only [destroyKids] at h
        injection h with h
        rw [← h]
      | cons c cs => simp [destroyKids, destroyNode] at h
  | succ fuel ih =>
    have hN : ∀ (v : Fin n) (m : Finset (Fin n)) r,
        destroyNode children (fuel + 1) v m = some r → r.1 = m := by
      intro v m r h
      simp only [destroyNode] at h
      by_cases hv : v ∈ m
      · rw [if_pos hv] at h
        injection h with h
        rw [← h]
      · rw [if_neg hv] at h
        cases hk : destroyKids children fuel (children v) (insert v m) with
        | none => rw [hk] at h; exact absurd h (by simp)
        | some p =>
          rw [hk] at h
          injection h with h
          have hp := ih.2 (children v) (insert v m) p hk
          rw [← h]
          simp only [hp]
          exact Finset.erase_insert hv
    refine ⟨hN, ?_⟩
    intro cs
    induction cs with
    | nil =>
      intro m r h
      simp only [destroyKids] at h
      injection h with h
      rw [← h]
    | cons c cs ihc =>
      intro m r h
      simp only [destroyKids] at h
      cases hk : destroyNode children (fuel + 1) c m with
      | none => rw [hk] at h; exact absurd h (by simp)
      | some p =>
        obtain ⟨p1, p2⟩ := p
        rw [hk] at h
        dsimp only at h
        cases hk2 : destroyKids children (fuel + 1) cs p1 with
        | none => rw [hk2] at h; exact absurd h (by simp)
        | some q =>
          obtain ⟨q1, q2⟩ := q
          rw [hk2] at h
          dsimp only at h
          injection h with h
          have hq := ihc p1 (q1, q2) hk2
          have hp := hN c m (p1, p2) hk
          rw [← h]
          exact hq.trans hp

/-- With fuel exceeding the number of unmarked nodes, teardown cannot
run out: each nested call marks one more node. -/
theorem destroy_sufficient {n : Nat} (children : Fin n → List (Fin n)) (fuel : Nat) :
    (∀ (v : Fin n) (m : Finset (Fin n)),
        (Finset.univ \ m).card < fuel → (destroyNode children fuel v m).isSome) ∧
    (∀ (cs : List (Fin n)) (m : Finset (Fin n)),
        (Finset.univ \ m).card < fuel → (destroyKids children fuel cs m).isSome) := by
  induction fuel with
  | zero =>
    constructor <;> (intro _ m h; exact absurd h (Nat.not_lt_zero _))
  | succ fuel ih =>
    have hN : ∀ (v : Fin n) (m : Finset (Fin n)),
        (Finset.univ \ m).card < fuel + 1 → (destroyNode children (fuel + 1) v m).isSome := by
      intro v m hc
      simp only [destroyNode]
      by_cases hv : v ∈ m
      · simp [hv]
      · rw [if_neg hv]
        have hvmem : v ∈ Finset.univ \ m := by simp [hv]
        have hkc : (Finset.univ \ insert v m).card < fuel := by
          have hins : Finset.univ \ insert v m = (Finset.univ \ m).erase v := by
            ext x
            simp only [Finset.mem_sdiff, Finset.mem_insert, Finset.mem_erase, Finset.mem_univ,
                       true_and]
            tauto
          have hone : 0 < (Finset.univ \ m).card := Finset.card_pos.mpr ⟨v, hvmem⟩
          rw [hins, Finset.card_erase_of_mem hvmem]
          omega
        have hks := ih.2 (children v) (insert v m) hkc
        cases hk : destroyKids children fuel (children v) (insert v m) with
        | none => rw [hk] at hks; exact absurd hks (by simp)
        | some p => simp [hk]
    refine ⟨hN, ?_⟩
    intro cs
    induction cs with
    | nil => intro m _; simp [destroyKids]
    | cons c cs ihc =>
      intro m hc
      simp only [destroyKids]
      rw [show destroyNode children (fuel + 1) c m =
            destroyNode children (fuel + 1) c m from rfl]
      cases hk : destroyNode children (fuel + 1) c m with
      | none =>
        have := hN c m hc
        rw [hk] at this
        exact absurd this (by simp)
      | some p =>
        obtain ⟨p1, p2⟩ := p
        have hp : p1 = m := (destroy_preserve children (fuel + 1)).1 c m (p1, p2) hk
        have hcs := ihc p1 (by rw [hp]; exact hc)
        dsimp only
        cases hk2 : destroyKids children (fuel + 1) cs p1 with
        | none => rw [hk2] at hcs; exact absurd hcs (by simp)
        | some q =>
          obtain ⟨q1, q2⟩ := q
          simp

/-- C3 (amended): for every finite graph of handler references —
including cycles and shared descendants — `_destroy` terminates: with
fuel one more than the number of nodes it never runs out, each node
appearing at most once on the recursion stack because of the
`BeingDestroyed` mark. -/
theorem c3_destroy_terminates {n : Nat} (children : Fin n → List (Fin n)) (v : Fin n) :
    (destroyNode children (n + 1) v ∅).isSome := by
  apply (destroy_sufficient children (n + 1)).1
  rw [Finset.sdiff_empty, Finset.card_univ, Fintype.card_fin]
  omega

/-- A diamond: node 0 references 1 and 2, which both reference 3. -/
def diamond (v : Fin 4) : List (Fin 4) :=
  if v = 0 then [1, 2] else if v = 1 then [3] else if v = 2 then [3] else []

/-- C3 counterexample: destroying the diamond's root calls `destroy()`
on the shared descendant 3 twice — the `BeingDestroyed` mark is cleared
when each path finishes, so a multiply-referenced node is torn down once
per referencing path, not exactly once. -/
theorem c3_shared_descendant_destroyed_twice :
    (destroyNode diamond 5 0 ∅).map (fun r => r.2.count 3) = some 2 := by
  simp [destroyNode, destroyKids, diamond, Finset.erase_insert]

/-! ### C9: the parsed-query mapping -/

/-- Extension of a stored value by later values of the same key: a
single value grows into a list once a second value arrives; a list
collects each further value at its end. -/
def extendQ : QVal → List (Option String) → QVal
  | .qOne v, vs => if vs.isEmpty then .qOne v else .qMany (v :: vs)
  | .qMany ws, vs => .qMany (ws ++ vs)

/-- Extending by nothing changes nothing. -/
theorem extendQ_nil (w : QVal) : extendQ w [] = w := by
  cases w <;> simp [extendQ]

/-- Rendering a non-empty value list is extending a fresh single. -/
theorem renderVals_cons (v : Option String) (vs : List (Option String)) :
    renderVals (v :: vs) = some (extendQ (.qOne v) vs) := by
  cases vs <;> simp [renderVals, extendQ]

/-- Updating a key stores the new value under it. -/
theorem qlookup_qset_self : ∀ (out : List (String × QVal)) (k : String) (w : QVal),
    qlookup (qset out k w) k = some w := by
  intro out
  induction out with
  | nil => intro k w; simp [qset, qlookup]
  | cons e rest ih =>
    intro k w
    obtain ⟨k', v'⟩ := e
    by_cases h : k' = k <;> simp [qset, qlookup, h, ih]

/-- Updating one key does not touch another. -/
theorem qlookup_qset_ne : ∀ (out : List (String × QVal)) (k k' : String) (w : QVal),
    k' ≠ k → qlookup (qset out k' w) k = qlookup out k := by
  intro out
  induction out with
  | nil => intro k k' w h; simp [qset, qlookup, h]
  | cons e rest ih =>
    intro k k' w h
    obtain ⟨k0, v0⟩ := e
    by_cases h0 : k0 = k' <;> simp [qset, qlookup, h0, h, ih _ _ _ h]

/-- Lookup passes over an appended tail while the key is present. -/
theorem qlookup_append_some : ∀ (out l : List (String × QVal)) (k : String) (w : QVal),
    qlookup out k = some w → qlookup (out ++ l) k = some w := by
  intro out
  induction out with
  | nil => intro l k w h; simp [qlookup] at h
  | cons e rest ih =>
    intro l k w h
    obtain ⟨k0, v0⟩ := e
    by_cases h0 : k0 = k <;> simp [qlookup, h0] at h ⊢
    · exact h
    · exact ih l k w h

/-- Lookup falls through to an appended tail when the key is absent. -/
theorem qlookup_append_none : ∀ (out l : List (String × QVal)) (k : String),
    qlookup out k = none → qlookup (out ++ l) k = qlookup l k := by
  intro out
  induction out with
  | nil => intro l k _; simp
  | cons e rest ih =>
    intro l k h
    obtain ⟨k0, v0⟩ := e
    by_cases h0 : k0 = k <;> simp [qlookup, h0] at h ⊢
    exact ih l k h

/-- Inserting under a different key does not change a key's value. -/
theorem qlookup_qinsert_ne (out : List (String × QVal)) (k k' : String) (v' : Option String)
    (h : k' ≠ k) : qlookup (qinsert out k' v') k = qlookup out k := by
  unfold qinsert
  cases h0 : qlookup out k' with
  | none =>
    cases h1 : qlookup out k with
    | none => rw [qlookup_append_none out _ k h1]; simp [qlookup, h]
    | some w => exact qlookup_append_some out _ k w h1
  | some w => cases w <;> exact qlookup_qset_ne out k k' _ h

/-- The accumulation loop, observed through one key: the final value is
the stored value extended by every later occurrence of that key. -/
theorem parseLoop_lookup : ∀ (occs : List (String × Option String))
    (out : List (String × QVal)) (k : String),
    qlookup (parseLoop occs out) k =
      (match qlookup out k with
       | none => renderVals (valuesOf k occs)
       | some w => some (extendQ w (valuesOf k occs))) := by
  intro occs
  induction occs with
  | nil =>
    intro out k
    cases h : qlookup out k <;> simp [parseLoop, valuesOf, renderVals, h, extendQ_nil]
  | cons kv occs ih =>
    intro out k
    obtain ⟨k', v'⟩ := kv
    simp only [parseLoop]
    rw [ih (qinsert out k' v') k]
    by_cases hk : k' = k
    · subst hk
      have hv : valuesOf k' ((k', v') :: occs) = v' :: valuesOf k' occs := by
        simp [valuesOf]
      rw [hv]
      cases h : qlookup out k' with
      | none =>
        have h1 : qlookup (qinsert out k' v') k' = some (.qOne v') := by
          unfold qinsert
          rw [h, qlookup_append_none out _ k' h]
          simp [qlookup]
        rw [h1, renderVals_cons]
      | some w =>
        cases w with
        | qOne v0 =>
          have h1 : qlookup (qinsert out k' v') k' = some (.qMany [v0, v']) := by
            unfold qinsert
            rw [h]
            exact qlookup_qset_self out k' _
          rw [h1]
          cases hvs : valuesOf k' occs <;> simp [extendQ, hvs]
        | qMany ws =>
          have h1 : qlookup (qinsert out k' v') k' = some (.qMany (ws ++ [v'])) := by
            unfold qinsert
            rw [h]
            exact qlookup_qset_self out k' _
          rw [h1]
          simp [extendQ]
    · have hv : valuesOf k ((k', v') :: occs) = valuesOf k occs := by
        simp [valuesOf, hk]
      rw [hv, qlookup_qinsert_ne out k k' v' hk]

/-- The keys of the mapping, in insertion order. -/
def keysOf (out : List (String × QVal)) : List String := out.map Prod.fst

/-- Keys of a non-empty mapping. -/
theorem keysOf_cons (e : String × QVal) (rest : List (String × QVal)) :
    keysOf (e :: rest) = e.1 :: keysOf rest := rfl

/-- A key is absent from the mapping iff it is not among its keys. -/
theorem qlookup_none_iff : ∀ (out : List (String × QVal)) (k : String),
    qlookup out k = none ↔ k ∉ keysOf out := by
  intro out
  induction out with
  | nil => intro k; simp [qlookup, keysOf]
  | cons e rest ih =>
    intro k
    obtain ⟨k0, v0⟩ := e
    by_cases h0 : k0 = k
    · subst h0
      simp [qlookup, keysOf_cons]
    · simp only [qlookup, keysOf_cons, List.mem_cons, if_neg h0, ih]
      have hne : ¬ k = k0 := fun h => h0 h.symm
      tauto

/-- Updating an existing key keeps the key list unchanged. -/
theorem keysOf_qset : ∀ (out : List (String × QVal)) (k : String) (w : QVal),
    k ∈ keysOf out → keysOf (qset out k w) = keysOf out := by
  intro out
  induction out with
  | nil => intro k w h; simp [keysOf] at h
  | cons e rest ih =>
    intro k w h
    obtain ⟨k0, v0⟩ := e
    by_cases h0 : k0 = k
    · simp [qset, h0, keysOf_cons]
    · have hmem : k ∈ keysOf rest := by
        rcases List.mem_cons.mp (by simpa [keysOf_cons] using h) with h1 | h1
        · exact absurd h1.symm h0
        · exact h1
      simp [qset, h0, keysOf_cons, ih k w hmem]

/-- First-seen key collection only depends on the membership of the
seen accumulator. -/
theorem firstSeenKeys_congr : ∀ (occs : List (String × Option String))
    (s1 s2 : List String), (∀ x, x ∈ s1 ↔ x ∈ s2) →
    firstSeenKeys occs s1 = firstSeenKeys occs s2 := by
  intro occs
  induction occs with
  | nil => intro s1 s2 _; rfl
  | cons kv occs ih =>
    intro s1 s2 hmem
    obtain ⟨k, v⟩ := kv
    simp only [firstSeenKeys]
    by_cases h1 : k ∈ s1
    · rw [if_pos h1, if_pos ((hmem k).mp h1)]
      exact ih s1 s2 hmem
    · rw [if_neg h1, if_neg (fun h => h1 ((hmem k).mpr h))]
      refine congrArg _ (ih (k :: s1) (k :: s2) ?_)
      intro x
      simp [hmem x]

/-- The accumulation loop appends exactly the fresh keys, in first-seen
order. -/
theorem parseLoop_keys : ∀ (occs : List (String × Option String))
    (out : List (String × QVal)),
    keysOf (parseLoop occs out) = keysOf out ++ firstSeenKeys occs (keysOf out) := by
  intro occs
  induction occs with
  | nil => intro out; simp [parseLoop, firstSeenKeys]
  | cons kv occs ih =>
    intro out
    obtain ⟨k', v'⟩ := kv
    simp only [parseLoop, firstSeenKeys]
    by_cases hk : k' ∈ keysOf out
    · obtain ⟨w, hw⟩ : ∃ w, qlookup out k' = some w := by
        cases h : qlookup out k' with
        | none => exact absurd ((qlookup_none_iff out k').mp h) (by simp [hk])
        | some w => exact ⟨w, rfl⟩
      have hkeys : keysOf (qinsert out k' v') = keysOf out := by
        unfold qinsert
        rw [hw]
        cases w <;> exact keysOf_qset out k' _ hk
      rw [ih, hkeys, if_pos hk]
    · have hw : qlookup out k' = none := (qlookup_none_iff out k').mpr hk
      have hkeys : keysOf (qinsert out k' v') = keysOf out ++ [k'] := by
        unfold qinsert
        rw [hw]
        simp [keysOf]
      rw [ih, hkeys, if_neg hk, List.append_assoc]
      refine congrArg _ ?_
      have := firstSeenKeys_congr occs (keysOf out ++ [k']) (k' :: keysOf out)
        (by intro x; simp [or_comm])
      rw [this]
      rfl

/-- C9: for every query string, the parsed mapping holds, under each key
that occurs (with a non-empty name), `None` when the key appeared once
with no `=`, the single value when it appeared exactly once with `=`,
and the ordered list of all its values when it appeared more than once;
keys that never occur are absent, and the mapping lists keys in
first-seen order. -/
theorem c9_parse_query (q : String) (k : String) :
    qlookup (parseQuery q) k = renderVals (valuesOf k (queryOccurrences q)) ∧
    (parseQuery q).map Prod.fst = firstSeenKeys (queryOccurrences q) [] := by
  constructor
  · have h := parseLoop_lookup (queryOccurrences q) [] k
    simpa [parseQuery, queryOccurrences, qlookup] using h
  · have h := parseLoop_keys (queryOccurrences q) []
    simpa [parseQuery, queryOccurrences, keysOf] using h

end WebPie
